import Mathlib

/-!
Verification of the frontend-cheatsheets markdown viewer.

The program is a TypeScript/React single-page app.  We embed its core logic
shallowly in Lean: JS strings become `List Char`, the section splitter
`markdown.split('---').map(s => s.trim())` becomes `sections`, the flashcard
paginator (`Math.min`/`Math.max` clamped index updates over JS numbers, here
`Int`) becomes explicit state-passing functions, and the fetch handlers become
functions from an `Except` outcome to the effects the code performs.
-/

namespace Cheatsheets

/-- JS strings modelled as lists of characters. -/
abbrev Str := List Char

/-- The literal separator `'---'` used by `split('---')`. -/
def sepChars : Str := ['-', '-', '-']

/-- Helper for the splitter: prepend a character to the first fragment. -/
def consHead (c : Char) : List Str → List Str
  | [] => [[c]]
  | f :: fs => (c :: f) :: fs

/-- Embedding of JS `raw.split('---')`: scan left to right, cutting at each
non-overlapping occurrence of the three-dash separator
(`src/src/components/MarkdownViewer.tsx` line 24 and line 60). -/
def splitDashes : Str → List Str
  | [] => [[]]
  | '-' :: '-' :: '-' :: rest => [] :: splitDashes rest
  | c :: rest => consHead c (splitDashes rest)

/-- Number of separator occurrences consumed by the left-to-right
non-overlapping scan (the `k` of the spec's `k+1` fragments). -/
def countSep : Str → Nat
  | [] => 0
  | '-' :: '-' :: '-' :: rest => countSep rest + 1
  | _ :: rest => countSep rest

/-- Whether the text contains the literal `'---'` anywhere. -/
def containsSep : Str → Bool
  | [] => false
  | '-' :: '-' :: '-' :: _ => true
  | _ :: rest => containsSep rest

/-- Embedding of JS `fragments.join('---')`: interleave the separator between
fragments. -/
def joinSep : List Str → Str
  | [] => []
  | [f] => f
  | f :: g :: fs => f ++ sepChars ++ joinSep (g :: fs)

/-- ECMAScript whitespace recognised by `String.prototype.trim` (the common
subset: space, tab, line feed, carriage return, vertical tab, form feed,
no-break space, BOM). -/
def isWs (c : Char) : Bool :=
  c == ' ' || c == '\t' || c == '\n' || c == '\r' ||
  c == '\x0B' || c == '\x0C' || c == ' ' || c == '﻿'

/-- Embedding of JS `s.trim()`: remove leading and trailing whitespace. -/
def trimChars (s : Str) : Str :=
  ((s.dropWhile isWs).reverse.dropWhile isWs).reverse

/-- The Section Splitter: `markdown.split('---').map(s => s.trim())`
(`src/src/components/MarkdownViewer.tsx` lines 24 and 60-60). -/
def sections (raw : Str) : List Str :=
  (splitDashes raw).map trimChars

theorem splitDashes_ne_nil (s : Str) : splitDashes s ≠ [] := by
  induction s using splitDashes.induct with
  | case1 => simp [splitDashes]
  | case2 rest ih => simp [splitDashes]
  | case3 c rest h ih =>
    rw [splitDashes.eq_3 c rest h]
    cases splitDashes rest <;> simp [consHead]

theorem length_splitDashes (s : Str) :
    (splitDashes s).length = countSep s + 1 := by
  induction s using splitDashes.induct with
  | case1 => simp [splitDashes, countSep]
  | case2 rest ih => simp [splitDashes, countSep, ih]
  | case3 c rest h ih =>
    rw [splitDashes.eq_3 c rest h, countSep.eq_3 c rest h]
    cases s' : splitDashes rest with
    | nil => exact absurd s' (splitDashes_ne_nil rest)
    | cons f fs =>
      rw [s'] at ih
      simpa [consHead] using ih

theorem joinSep_splitDashes (s : Str) : joinSep (splitDashes s) = s := by
  induction s using splitDashes.induct with
  | case1 => simp [splitDashes, joinSep]
  | case2 rest ih =>
    rw [splitDashes.eq_2]
    cases s' : splitDashes rest with
    | nil => exact absurd s' (splitDashes_ne_nil rest)
    | cons f fs =>
      rw [s'] at ih
      simp [joinSep, sepChars, ih]
  | case3 c rest h ih =>
    rw [splitDashes.eq_3 c rest h]
    cases s' : splitDashes rest with
    | nil => exact absurd s' (splitDashes_ne_nil rest)
    | cons f fs =>
      rw [s'] at ih
      cases fs with
      | nil => simpa [consHead, joinSep] using congrArg (c :: ·) ih
      | cons g gs =>
        simp only [consHead, joinSep] at ih ⊢
        simp only [List.cons_append, List.append_assoc] at ih ⊢
        rw [ih]

theorem countSep_eq_zero_of_not_containsSep (s : Str)
    (h : containsSep s = false) : countSep s = 0 := by
  induction s using countSep.induct with
  | case1 => simp [countSep]
  | case2 rest ih =>
    rw [containsSep.eq_2] at h
    exact absurd h (by simp)
  | case3 c rest hpat ih =>
    rw [countSep.eq_3 c rest hpat]
    rw [containsSep.eq_3 c rest hpat] at h
    exact ih h

theorem sections_ne_nil (raw : Str) : sections raw ≠ [] := by
  rw [sections]
  simp [splitDashes_ne_nil raw]

/-- C1: for every raw text containing `k` non-overlapping occurrences of the
literal separator `'---'` (where `k = countSep raw`, the count consumed by the
left-to-right non-overlapping scan of `split`), the splitter yields exactly
`k+1` fragments; each fragment equals the corresponding untrimmed fragment
with leading and trailing whitespace removed, in document order; and joining
the untrimmed fragments with `'---'` reconstructs the raw text exactly. -/
theorem split_fragment_count_trim_and_join (raw : Str) :
    (sections raw).length = countSep raw + 1 ∧
    (∀ i : Nat, (sections raw)[i]? = ((splitDashes raw)[i]?).map trimChars) ∧
    joinSep (splitDashes raw) = raw := by
  refine ⟨?_, ?_, joinSep_splitDashes raw⟩
  · rw [sections, List.length_map, length_splitDashes]
  · intro i
    rw [sections, List.getElem?_map]

/-- C5: splitting the empty string yields exactly one fragment (the empty
Section), splitting any text containing no occurrence of `'---'` yields
exactly one fragment, and the splitter never returns an empty sequence. -/
theorem split_nonempty_and_singleton_cases :
    sections [] = [[]] ∧
    (∀ raw : Str, containsSep raw = false → (sections raw).length = 1) ∧
    (∀ raw : Str, sections raw ≠ []) := by
  refine ⟨rfl, ?_, ?_⟩
  · intro raw h
    rw [sections, List.length_map, length_splitDashes,
      countSep_eq_zero_of_not_containsSep raw h]
  · exact sections_ne_nil

theorem split_nonempty_and_singleton_cases_witness :
    containsSep "no separator here".toList = false ∧
    (sections "no separator here".toList).length = 1 ∧
    sections "abc".toList ≠ [] :=
  ⟨by decide,
   split_nonempty_and_singleton_cases.2.1 "no separator here".toList (by decide),
   split_nonempty_and_singleton_cases.2.2 "abc".toList⟩

/-! ## Paginator (flashcard mode)

`src/src/components/MarkdownViewer.tsx`, FlashcardViewer:
`const next = () => setIndex(i => Math.min(i + 1, slides.length - 1));`
`const prev = () => setIndex(i => Math.max(i - 1, 0));`
JS numbers stay on integer values here, so the index is modelled as `Int`
(note `slides.length - 1` is `-1` when the slide list is empty). -/

/-- JS `Math.min(i + 1, slides.length - 1)` (FlashcardViewer line 66). -/
def nextIdx (len : Nat) (i : Int) : Int := min (i + 1) ((len : Int) - 1)

/-- JS `Math.max(i - 1, 0)` (FlashcardViewer line 67). -/
def prevIdx (i : Int) : Int := max (i - 1) 0

/-- A navigation request: Next/ArrowRight or Previous/ArrowLeft. -/
inductive NavOp
  | next
  | prev
deriving DecidableEq

def navStep (len : Nat) (i : Int) : NavOp → Int
  | .next => nextIdx len i
  | .prev => prevIdx i

/-- Run a sequence of next/prev calls from index 0 on a slide list of the
given length. -/
def navRun (len : Nat) (ops : List NavOp) : Int :=
  ops.foldl (navStep len) 0

theorem navStep_bounds {len : Nat} (hlen : 1 ≤ len) {i : Int}
    (h0 : 0 ≤ i) (h1 : i ≤ (len : Int) - 1) (op : NavOp) :
    0 ≤ navStep len i op ∧ navStep len i op ≤ (len : Int) - 1 := by
  cases op <;> simp only [navStep, nextIdx, prevIdx] <;> omega

theorem navRun_bounds (len : Nat) (hlen : 1 ≤ len) (ops : List NavOp) :
    0 ≤ navRun len ops ∧ navRun len ops ≤ (len : Int) - 1 := by
  suffices h : ∀ i : Int, 0 ≤ i → i ≤ (len : Int) - 1 →
      0 ≤ ops.foldl (navStep len) i ∧ ops.foldl (navStep len) i ≤ (len : Int) - 1 by
    exact h 0 le_rfl (by omega)
  induction ops with
  | nil => exact fun i h0 h1 => ⟨h0, h1⟩
  | cons op rest ih =>
    intro i h0 h1
    have hb := navStep_bounds hlen h0 h1 op
    exact ih _ hb.1 hb.2

/-- C2: for every section sequence (the splitter's output on any raw text,
hence of length `N ≥ 1`) and every finite sequence of next/prev calls
starting from index 0, the current index never leaves `[0, N-1]`. -/
theorem paginator_index_within_bounds (raw : Str) (ops : List NavOp) :
    0 ≤ navRun (sections raw).length ops ∧
    navRun (sections raw).length ops ≤ ((sections raw).length : Int) - 1 :=
  navRun_bounds _ (List.length_pos.mpr (sections_ne_nil raw)) ops

/-- C3: `next` sets the index to `min(i+1, N-1)` and `prev` to `max(i-1, 0)`;
in particular `next` at index `N-1` and `prev` at index 0 leave the index
unchanged. -/
theorem paginator_clamped_transitions (len : Nat) (i : Int) :
    nextIdx len i = min (i + 1) ((len : Int) - 1) ∧
    prevIdx i = max (i - 1) 0 ∧
    nextIdx len ((len : Int) - 1) = (len : Int) - 1 ∧
    prevIdx 0 = 0 := by
  refine ⟨rfl, rfl, ?_, ?_⟩
  · rw [nextIdx]; omega
  · rw [prevIdx]; omega

/-! ## FlashcardViewer state machine

State: `const [slides, setSlides] = useState<string[]>([])` and
`const [index, setIndex] = useState(0)`.  Events: a completed fetch for the
current file (`setSlides(parts); setIndex(0)`), and the next/prev handlers
(also reached via the ArrowRight/ArrowLeft key bindings). -/

structure FlashState where
  slides : List Str
  index : Int
deriving DecidableEq

inductive FlashEvent
  /-- The `useEffect([file])` fetch resolved with this raw text. -/
  | fetchDone (raw : Str)
  /-- `next()`, via the Next button or the ArrowRight key. -/
  | navNext
  /-- `prev()`, via the Previous button or the ArrowLeft key. -/
  | navPrev
deriving DecidableEq

/-- Initial mount state: `useState([])`, `useState(0)`. -/
def flashInit : FlashState := ⟨[], 0⟩

def flashStep (st : FlashState) : FlashEvent → FlashState
  | .fetchDone raw => { slides := sections raw, index := 0 }
  | .navNext => { st with index := nextIdx st.slides.length st.index }
  | .navPrev => { st with index := prevIdx st.index }

def flashRun (evs : List FlashEvent) : FlashState :=
  evs.foldl flashStep flashInit

/-- `if (!slides.length) return null;` (FlashcardViewer line 78). -/
def rendersCard (st : FlashState) : Bool := !st.slides.isEmpty

/-- The bounds invariant of the flashcard viewer whenever slides exist. -/
def FlashInv (st : FlashState) : Prop :=
  st.slides ≠ [] → 0 ≤ st.index ∧ st.index < (st.slides.length : Int)

theorem flashInv_init : FlashInv flashInit := fun h => absurd rfl h

theorem flashInv_step (st : FlashState) (ev : FlashEvent) (hst : FlashInv st) :
    FlashInv (flashStep st ev) := by
  cases ev with
  | fetchDone raw =>
    intro _
    refine ⟨le_rfl, ?_⟩
    have := List.length_pos.mpr (sections_ne_nil raw)
    simp only [flashStep]
    omega
  | navNext =>
    intro hne
    have hb := hst hne
    have hlen : 1 ≤ st.slides.length := List.length_pos.mpr hne
    simp only [flashStep, nextIdx] at *
    omega
  | navPrev =>
    intro hne
    have hb := hst hne
    simp only [flashStep, prevIdx] at *
    omega

theorem flashInv_run (evs : List FlashEvent) : FlashInv (flashRun evs) := by
  rw [flashRun]
  suffices h : ∀ st : FlashState, FlashInv st → FlashInv (evs.foldl flashStep st) from
    h flashInit flashInv_init
  induction evs with
  | nil => exact fun st hst => hst
  | cons ev rest ih => exact fun st hst => ih _ (flashInv_step st ev hst)

/-- C10: after any sequence of events from the initial mount, the flashcard
viewer renders a card exactly when the slide list is non-empty, and whenever
it renders, the current index is a valid position in the slide list; moreover
every completed fetch installs a non-empty slide list together with index 0. -/
theorem flashcard_no_out_of_bounds_access (evs : List FlashEvent) :
    (rendersCard (flashRun evs) = true ↔ (flashRun evs).slides ≠ []) ∧
    ((flashRun evs).slides ≠ [] →
      0 ≤ (flashRun evs).index ∧
      (flashRun evs).index < ((flashRun evs).slides.length : Int)) ∧
    (∀ st raw, (flashStep st (.fetchDone raw)).slides ≠ [] ∧
      (flashStep st (.fetchDone raw)).index = 0) := by
  refine ⟨?_, flashInv_run evs, fun st raw => ⟨sections_ne_nil raw, rfl⟩⟩
  simp [rendersCard, List.isEmpty_iff]

theorem flashcard_no_out_of_bounds_access_witness :
    (flashRun [FlashEvent.fetchDone "a---b".toList, FlashEvent.navNext]).slides ≠ [] ∧
    0 ≤ (flashRun [FlashEvent.fetchDone "a---b".toList, FlashEvent.navNext]).index ∧
    (flashRun [FlashEvent.fetchDone "a---b".toList, FlashEvent.navNext]).index <
      ((flashRun [FlashEvent.fetchDone "a---b".toList, FlashEvent.navNext]).slides.length : Int) :=
  ⟨by decide,
   (flashcard_no_out_of_bounds_access
     [FlashEvent.fetchDone "a---b".toList, FlashEvent.navNext]).2.1 (by decide)⟩

/-- C6: whenever the active document changes (the `useEffect([file])` fetch
resolves with the new document's content) the paginator's index is reset to 0
and the slide list is replaced wholesale by the sections split from the new
content; a fresh mount of the flashcard viewer also starts at index 0. -/
theorem document_change_resets_paginator (st : FlashState) (raw : Str) :
    (flashStep st (.fetchDone raw)).index = 0 ∧
    (flashStep st (.fetchDone raw)).slides = sections raw ∧
    flashInit.index = 0 :=
  ⟨rfl, rfl, rfl⟩

/-! ## Theme toggle (App, src/unnamed/part_000)

`const [theme, setTheme] = useState('dark');`
`useEffect(() => { document.body.className = theme; }, [theme]);`
`const toggleTheme = () => setTheme(prev => (prev === 'dark' ? 'light' : 'dark'));` -/

def darkTheme : Str := "dark".toList

def lightTheme : Str := "light".toList

/-- `prev === 'dark' ? 'light' : 'dark'`. -/
def toggleTheme (t : Str) : Str := if t = darkTheme then lightTheme else darkTheme

/-- App-level theme state: the `theme` state variable and the page-wide
attribute `document.body.className` the `useEffect([theme])` keeps equal to
it. -/
structure ThemeState where
  theme : Str
  bodyClassName : Str
deriving DecidableEq

/-- One user click of the theme toggle followed by the `useEffect([theme])`
that writes `document.body.className = theme`. -/
def themeToggleStep (st : ThemeState) : ThemeState :=
  ⟨toggleTheme st.theme, toggleTheme st.theme⟩

/-- C9: toggling the theme is an involution: from any state whose theme is
`dark` or `light` and whose body class is in sync (which the `useEffect`
guarantees), toggling twice restores both the theme state and the document
body class exactly. -/
theorem theme_toggle_involution (st : ThemeState)
    (htheme : st.theme = darkTheme ∨ st.theme = lightTheme)
    (hsync : st.bodyClassName = st.theme) :
    themeToggleStep (themeToggleStep st) = st := by
  obtain ⟨t, b⟩ := st
  simp only at hsync
  subst hsync
  rcases htheme with h | h <;> subst h <;> decide

theorem theme_toggle_involution_witness :
    themeToggleStep (themeToggleStep ⟨darkTheme, darkTheme⟩) =
      (⟨darkTheme, darkTheme⟩ : ThemeState) :=
  theme_toggle_involution ⟨darkTheme, darkTheme⟩ (Or.inl rfl) rfl

/-! ## Fetch handlers (error behaviour)

MarkdownViewer (src/src/components/MarkdownViewer.tsx lines 17-21):
`fetch(file.path).then(response => response.text()).then(text => setMarkdown(text));`
— no `.catch`, so a rejected fetch runs none of the component's code.

The marked-based variant (src/unnamed/part_001):
`fetch(file.path).then(res => res.text()).then(setContent).catch(console.error);`
— a rejected fetch is caught and logged to the console. -/

/-- Outcome of one fetch: resolved text, or a network/decoding failure. -/
inductive FetchOutcome
  | ok (text : Str)
  | err
deriving DecidableEq

/-- Observable effects of handling one fetch outcome: the content displayed
afterwards (given the previously displayed content), whether the component
logged the error, and whether any user-visible error state was set. -/
structure FetchEffects where
  content : Str
  logged : Bool
  errorStateSet : Bool
deriving DecidableEq

/-- ReactMarkdown-based MarkdownViewer: no catch handler, so on rejection
nothing runs — content stays, nothing is logged, no error state exists. -/
def markdownViewerFetch (current : Str) : FetchOutcome → FetchEffects
  | .ok text => ⟨text, false, false⟩
  | .err => ⟨current, false, false⟩

/-- marked-based MarkdownViewer variant: `.catch(console.error)` logs the
rejection; content stays and no error state exists. -/
def markedViewerFetch (current : Str) : FetchOutcome → FetchEffects
  | .ok text => ⟨text, false, false⟩
  | .err => ⟨current, true, false⟩

/-- C4 counterexample: in the primary MarkdownViewer a fetch error is NOT
caught and logged — the claim that every such error is caught and logged
fails on the concrete error outcome with empty prior content. -/
theorem fetch_error_not_logged_counterexample :
    ¬ ((markdownViewerFetch [] FetchOutcome.err).logged = true) := by decide

/-- C4 (amended): only the marked-based viewer variant catches and logs fetch
errors; the ReactMarkdown-based viewer attaches no catch handler, so the
error is neither caught nor logged there.  In both, on error no new content
is shown and no user-visible error state is set: the previously displayed or
empty content remains. -/
theorem fetch_error_effects (current : Str) :
    markdownViewerFetch current .err = ⟨current, false, false⟩ ∧
    markedViewerFetch current .err = ⟨current, true, false⟩ :=
  ⟨rfl, rfl⟩

/-! ## Renderer code-block dispatch

FlashcardViewer lines 86-102 (same shape in the highlighting MarkdownViewer
variant): `const match = /language-(\w+)/.exec(className || '');` then
`!node.properties.inline && match ? <SyntaxHighlighter language={match[1]}…>
{String(children).replace(/\n$/, '')}</SyntaxHighlighter>
: <code className={className}>{children}</code>`. -/

/-- Regex word character `\w`: letters, digits, underscore. -/
def isWordChar (c : Char) : Bool := c.isAlphanum || c == '_'

def langTagChars : Str := ['l', 'a', 'n', 'g', 'u', 'a', 'g', 'e', '-']

/-- JS `/language-(\w+)/.exec(className)`: scan for the leftmost position
where the literal `language-` is followed by at least one word character and
capture the maximal word-character run after it; `none` when the regex does
not match. -/
def execLang : Str → Option Str
  | [] => none
  | c :: rest =>
    if (c :: rest).take 9 = langTagChars then
      match ((c :: rest).drop 9).takeWhile isWordChar with
      | [] => execLang rest
      | w => some w
    else execLang rest

/-- JS `String(children).replace(/\n$/, '')`: drop one trailing newline. -/
def stripTrailingNewline (s : Str) : Str :=
  match s.reverse with
  | '\n' :: rest => rest.reverse
  | _ => s

/-- The two render paths of the `code` component override. -/
inductive Rendered
  | highlighted (lang : Str) (code : Str)
  | plainCode (className : Str) (code : Str)
deriving DecidableEq

/-- The `code` component override: a non-inline block whose className
matches `/language-(\w+)/` goes through SyntaxHighlighter with the captured
language and the newline-stripped text; everything else renders as a plain
`<code>` element. -/
def renderCode (inline : Bool) (className : Str) (children : Str) : Rendered :=
  match inline, execLang className with
  | false, some lang => .highlighted lang (stripTrailingNewline children)
  | _, _ => .plainCode className children

theorem execLang_tag_append (lang : Str) (hne : lang ≠ [])
    (hw : ∀ c ∈ lang, isWordChar c = true) :
    execLang (langTagChars ++ lang) = some lang := by
  have htw : lang.takeWhile isWordChar = lang := List.takeWhile_eq_self_iff.mpr hw
  show execLang
    ('l' :: 'a' :: 'n' :: 'g' :: 'u' :: 'a' :: 'g' :: 'e' :: '-' :: lang) = some lang
  rw [execLang]
  have hc : List.take 9
      ('l' :: 'a' :: 'n' :: 'g' :: 'u' :: 'a' :: 'g' :: 'e' :: '-' :: lang) =
      langTagChars := rfl
  rw [if_pos hc]
  show (match lang.takeWhile isWordChar with
        | [] => execLang ('a' :: 'n' :: 'g' :: 'u' :: 'a' :: 'g' :: 'e' :: '-' :: lang)
        | w => some w) = some lang
  rw [htw]
  cases lang with
  | nil => exact absurd rfl hne
  | cons c cs => rfl

/-- C7: a fenced, non-inline code block whose class is `language-xxx` (for a
non-empty word-character tag `xxx`) is routed through the syntax highlighter
with language `xxx` and newline-stripped text, while the same raw code text
without a language tag renders as a plain code element, and these two outputs
differ. -/
theorem tagged_code_block_is_highlighted (lang code : Str)
    (hne : lang ≠ []) (hw : ∀ c ∈ lang, isWordChar c = true) :
    renderCode false (langTagChars ++ lang) code =
      Rendered.highlighted lang (stripTrailingNewline code) ∧
    renderCode false [] code = Rendered.plainCode [] code ∧
    Rendered.highlighted lang (stripTrailingNewline code) ≠
      Rendered.plainCode [] code := by
  refine ⟨?_, rfl, fun h => Rendered.noConfusion h⟩
  unfold renderCode
  rw [execLang_tag_append lang hne hw]

theorem tagged_code_block_is_highlighted_witness :
    renderCode false (langTagChars ++ "js".toList) "x = 1\n".toList =
      Rendered.highlighted "js".toList (stripTrailingNewline "x = 1\n".toList) :=
  (tagged_code_block_is_highlighted "js".toList "x = 1\n".toList
    (by decide) (by decide)).1

/-! ## Document Store (App, src/unnamed/part_000, and TopBar)

Variant A enumerates the filenames and builds
`{ name: name.replace('.md', ''), path: `/md/${name}` }`; variant B derives
the same entries from a build-time scan of the content directory.  TopBar
line 45 renders each entry's label by globally replacing each hyphen in
`file.name` with a space. -/

/-- JS `name.replace('.md', '')`: remove the first occurrence of `.md`. -/
def stripMd : Str → Str
  | [] => []
  | '.' :: 'm' :: 'd' :: rest => rest
  | c :: rest => c :: stripMd rest

structure FileEntry where
  name : Str
  path : Str
deriving DecidableEq

def mdBase : Str := "/md/".toList

/-- `{ name: name.replace('.md', ''), path: `/md/${name}` }`. -/
def mkEntry (filename : Str) : FileEntry :=
  ⟨stripMd filename, mdBase ++ filename⟩

/-- Variant A's hard-coded document list. -/
def mdFilenames : List Str :=
  ["javascript.md", "react-hooks.md", "react-components-lifecycle.md",
   "typescript.md"].map String.toList

/-- Variant B's build-time scan of the content directory: the markdown files
actually present under public/md. -/
def globFilenames : List Str :=
  ["Interview-Questions.md", "React-Hooks.md", "javascript.md",
   "react-components-lifecycle.md", "typescript.md"].map String.toList

/-- TopBar line 45: the global regex replace of hyphen by space in
`file.name`. -/
def navLabel (name : Str) : Str := name.map fun c => if c = '-' then ' ' else c

/-- Modelled from the spec: the title-casing of the display label is applied
by the page styling, which is not among the source files; per the spec the
label's non-alphanumeric separators are converted to spaces and the result is
shown title-case.  Uppercase the first letter of each space-separated word. -/
def titleCaseGo : Bool → Str → Str
  | _, [] => []
  | atStart, c :: rest =>
    (if atStart then c.toUpper else c) :: titleCaseGo (c == ' ') rest

def titleCase (s : Str) : Str := titleCaseGo true s

/-- The displayed label: the in-code hyphen-to-space replacement followed by
the style-layer title-casing. -/
def displayLabel (name : Str) : Str := titleCase (navLabel name)

/-- The spec's words: the filename minus its extension (the trailing `.md`
suffix, when present). -/
def stemOfFilename (f : Str) : Str :=
  if f.reverse.take 3 = ['d', 'm', '.'] then (f.reverse.drop 3).reverse else f

/-- C8: for every document filename in the store (either variant), the
constructed entry's name is the filename minus its extension, its path is the
filename under the `/md/` base path, and its display label is the title-cased
form of the name with the hyphen separators turned into spaces (so the label
shows no hyphen). -/
theorem store_entry_construction (f : Str)
    (hf : f ∈ mdFilenames ++ globFilenames) :
    (mkEntry f).name = stemOfFilename f ∧
    (mkEntry f).path = mdBase ++ f ∧
    displayLabel (mkEntry f).name = titleCase (navLabel (stemOfFilename f)) ∧
    ∀ c ∈ displayLabel (mkEntry f).name, c ≠ '-' := by
  fin_cases hf <;> exact ⟨by decide, rfl, by decide, by decide⟩

theorem store_entry_construction_witness :
    ("react-hooks.md".toList ∈ mdFilenames ++ globFilenames) ∧
    (mkEntry "react-hooks.md".toList).name = stemOfFilename "react-hooks.md".toList ∧
    (mkEntry "react-hooks.md".toList).path = mdBase ++ "react-hooks.md".toList :=
  ⟨by decide,
   (store_entry_construction "react-hooks.md".toList (by decide)).1,
   (store_entry_construction "react-hooks.md".toList (by decide)).2.1⟩

end Cheatsheets
